import Mathlib

/-!
Verification of the wikifacts-datasets corpus-construction pipeline
(`sents.py`, `paras.py`, `windows.py`).

Texts are modelled as `List Char`.  The Unicode operations delegated to
Python's `unicodedata` module (`normalize('NFC', ·)`, `normalize('NFD', ·)`,
`combining`) are modelled by explicit finite tables covering the character
repertoire the pipeline manipulates (Cyrillic и/е/й/ё and their capitals,
Latin a/e with acute, the combining marks U+0300/U+0301/U+0306/U+0308);
characters outside the tables have no decomposition, no composition and are
not combining, exactly as in Unicode for e.g. ASCII.  The external sentence
segmenter (`razdel.sentenize`) is an abstract parameter `seg` of the builds.
-/

namespace WikiFacts

/-- Combining marks of the modelled repertoire (`unicodedata.combining c != 0`):
grave U+0300, acute U+0301, breve U+0306, diaeresis U+0308. -/
def combiningMarks : List Char := ['\u0300', '\u0301', '\u0306', '\u0308']

/-- Does `unicodedata.combining` report a non-zero combining class for `c`? -/
def isCombining (c : Char) : Bool := combiningMarks.contains c

/-- Canonical decomposition of a single character (`unicodedata.normalize('NFD', c)`),
as a table over the modelled repertoire; characters without a canonical
decomposition map to themselves. -/
def nfdChar (c : Char) : List Char :=
  if c = 'й' then ['и', '\u0306']      -- й = и + breve
  else if c = 'ё' then ['е', '\u0308'] -- ё = е + diaeresis
  else if c = 'Й' then ['И', '\u0306'] -- Й = И + breve
  else if c = 'Ё' then ['Е', '\u0308'] -- Ё = Е + diaeresis
  else if c = 'á' then ['a', '\u0301']      -- á = a + acute
  else if c = 'é' then ['e', '\u0301']      -- é = e + acute
  else [c]

/-- Canonical composition of a base character with a combining mark
(the inverse of `nfdChar`); `none` when the pair does not compose. -/
def composePair (a b : Char) : Option Char :=
  if b = '\u0306' then
    (if a = 'и' then some 'й' else if a = 'И' then some 'Й' else none)
  else if b = '\u0308' then
    (if a = 'е' then some 'ё' else if a = 'Е' then some 'Ё' else none)
  else if b = '\u0301' then
    (if a = 'a' then some 'á' else if a = 'e' then some 'é' else none)
  else none

/-- Full canonical decomposition of a text (`unicodedata.normalize('NFD', t)`). -/
def nfd (t : List Char) : List Char := t.flatMap nfdChar

/-- Helper of `compose`: recompose with `a` as the pending starter. -/
def composeAux (a : Char) : List Char → List Char
  | [] => [a]
  | b :: rest =>
    match composePair a b with
    | some c => composeAux c rest
    | none => a :: composeAux b rest

/-- Canonical recomposition pass over a decomposed text. -/
def compose : List Char → List Char
  | [] => []
  | a :: rest => composeAux a rest

/-- Model of `unicodedata.normalize('NFC', t)`: decompose then recompose. -/
def nfc (t : List Char) : List Char := compose (nfd t)

/-- Whitespace in the sense of Python's `str.strip` and the regex class
`\s` (the members relevant to the modelled repertoire; U+00A0 is whitespace
for Python). -/
def pyIsSpace (c : Char) : Bool :=
  c = ' ' || c = '\t' || c = '\n' || c = '\r' || c = '\u000B' || c = '\u000C' || c = '\u00A0'

/-- Model of Python `str.strip()`: drop leading and trailing whitespace. -/
def pyStrip (t : List Char) : List Char :=
  ((t.dropWhile pyIsSpace).reverse.dropWhile pyIsSpace).reverse

/-- Step `re.sub(r'а́', 'а', text)` of `preprocess_text`: replace every
occurrence of Cyrillic а (U+0430) followed by a combining acute accent
(U+0301) by а alone. -/
def accentSub : List Char → List Char
  | [] => []
  | [c] => [c]
  | c :: d :: rest =>
    if c = 'а' ∧ d = '\u0301' then 'а' :: accentSub rest
    else c :: accentSub (d :: rest)

/-- Length of the leading whitespace run (how much `\s*` can consume greedily). -/
def spaceRun : List Char → Nat
  | [] => 0
  | c :: rest => if pyIsSpace c then spaceRun rest + 1 else 0

/-- Attempt to match the regex `==\s*(.*?)\s*==\s*` at the head of `t`,
with Python's backtracking priorities (greedy `\s*`, lazy `.*?`, `.` not
matching newline).  Returns the captured group and the text after the match. -/
def headerMatch (t : List Char) : Option (List Char × List Char) :=
  match t with
  | '=' :: '=' :: u =>
    ((List.range (spaceRun u + 1)).reverse).findSome? fun aLen =>
      let u1 := u.drop aLen
      (List.range (u1.length + 1)).findSome? fun bLen =>
        let b := u1.take bLen
        if b.all (fun c => c ≠ '\n') then
          let u2 := u1.drop bLen
          ((List.range (spaceRun u2 + 1)).reverse).findSome? fun cLen =>
            match u2.drop cLen with
            | '=' :: '=' :: v => some (b, v.drop (spaceRun v))
            | _ => none
        else none
  | _ => none

/-- Scanner of `re.sub(r"==\s*(.*?)\s*==\s*", r"\1 ", text)`: at each position
try a match; on success emit the captured group plus a space and continue
after the match, otherwise keep one character and move on.  The fuel is an
upper bound on the number of scanning steps; every step consumes at least one
input character, so `t.length + 1` suffices. -/
def headerSubGo : Nat → List Char → List Char
  | 0, t => t
  | _ + 1, [] => []
  | fuel + 1, c :: rest =>
    match headerMatch (c :: rest) with
    | some (g, after) => g ++ ' ' :: headerSubGo fuel after
    | none => c :: headerSubGo fuel rest

/-- Step `re.sub(r"==\s*(.*?)\s*==\s*", r"\1 ", text)` of `preprocess_text`. -/
def headerSub (t : List Char) : List Char := headerSubGo (t.length + 1) t

/-- Step `text.replace('\xa0', ' ')` of `preprocess_text`. -/
def nbspSub (t : List Char) : List Char := t.map fun c => if c = '\u00A0' then ' ' else c

/-- Base letters protected from diacritic stripping (`exclude_chars = "йё"`). -/
def excludeChars : List Char := ['й', 'ё']

/-- Per-character processing of the final loop of `preprocess_text`:
keep protected letters, otherwise decompose and drop combining marks. -/
def stripDiacriticsChar (c : Char) : List Char :=
  if excludeChars.contains c then [c]
  else (nfdChar c).filter fun d => !isCombining d

/-- Final loop of `preprocess_text` over the whole text. -/
def stripDiacritics (t : List Char) : List Char := t.flatMap stripDiacriticsChar

/-- Model of `preprocess_text` (identical in `sents.py`, `paras.py`,
`windows.py`): accent substitution, header-marker removal, NBSP replacement
and trim, NFC normalization, then per-character diacritic stripping with the
exclusion set. -/
def preprocess_text (t : List Char) : List Char :=
  stripDiacritics (nfc (pyStrip (nbspSub (headerSub (accentSub t)))))

/-- Model of Python's substring operator `needle in haystack`
(`is_sentence_in_window` / `is_sentence_in_paragraph` use it on
preprocessed texts). -/
def isSubstring : List Char → List Char → Bool
  | p, [] => p.isEmpty
  | p, t@(_ :: rest) => p.isPrefixOf t || isSubstring p rest

/-- Model of `is_sentence_in_window` (`windows.py`) and
`is_sentence_in_paragraph` (`paras.py`). -/
def is_sentence_in_window (sentence window : List Char) : Bool :=
  isSubstring (preprocess_text sentence) (preprocess_text window)

/-- One source reference of a fact: the URL and the raw text of the source
document (`link_item["link"]` and `link_item.get("link_data")`); `none`
models a record without a `link_data` field. -/
structure Link where
  url : String
  link_data : Option String
deriving Repr, DecidableEq

/-- One input fact/query record: its text and its ordered source references. -/
structure Fact where
  fact : String
  links : List Link
deriving Repr, DecidableEq

/-- First-match lookup in an association list, modelling Python dict access. -/
def alookup {α : Type} : List (String × α) → String → Option α
  | [], _ => none
  | p :: m, k => if p.1 = k then some p.2 else alookup m k

/-- Global state of the sentence-stream build of `windows.py` (lines 77-113):
the global sentence list (text and recorded global index, the id being
`"bwc-" ++ index`), the `processed_links` cache, the global sentence counter
and the accumulated `query_interval_sent` lists (one entry per fact, in fact
order; fact ids `"bwq-" ++ position` are sequential, so the position in this
list is the numeric fact id). -/
structure WinState where
  sentences : List (List Char × Nat)
  cache : List (String × (Int × Int))
  counter : Nat
  queryIntervals : List (List (Int × Int))
deriving Repr, DecidableEq

/-- Sentence post-processing of `windows.py` line 101:
`[s.text.strip() for s in sentence_objs if s.text.strip()]`. -/
def stripSentences (segmented : List (List Char)) : List (List Char) :=
  (segmented.map pyStrip).filter fun s => s ≠ []

/-- Per-link step of the `windows.py` build loop (lines 88-112).  The
accumulator carries the global state, the per-fact `fact_links` set and the
per-fact `intervals_for_fact` list.  `seg` is the external sentence
segmenter (`razdel.sentenize`). -/
def winLink (seg : List Char → List (List Char))
    (acc : WinState × List String × List (Int × Int)) (lnk : Link) :
    WinState × List String × List (Int × Int) :=
  let (gs, fl, ivs) := acc
  if lnk.url ∈ fl then (gs, fl, ivs)
  else
    let fl' := lnk.url :: fl
    match alookup gs.cache lnk.url with
    | some iv => (gs, fl', ivs ++ [iv])
    | none =>
      let txt := preprocess_text (lnk.link_data.getD "").toList
      if txt = [] then (gs, fl', ivs)
      else
        let sents := stripSentences (seg txt)
        if sents = [] then (gs, fl', ivs)
        else
          let start : Int := gs.counter
          let stop : Int := (gs.counter : Int) + sents.length - 1
          ({ sentences := gs.sentences ++ sents.enum.map fun p => (p.2, gs.counter + p.1)
             cache := gs.cache ++ [(lnk.url, (start, stop))]
             counter := gs.counter + sents.length
             queryIntervals := gs.queryIntervals }, fl', ivs ++ [(start, stop)])

/-- Per-fact step of the `windows.py` build loop (lines 83-113). -/
def winFact (seg : List Char → List (List Char)) (gs : WinState) (f : Fact) : WinState :=
  let r := f.links.foldl (winLink seg) (gs, [], [])
  { r.1 with queryIntervals := r.1.queryIntervals ++ [r.2.2] }

/-- The whole sentence-stream build of `windows.py` over all facts. -/
def winBuild (seg : List Char → List (List Char)) (facts : List Fact) : WinState :=
  facts.foldl (winFact seg) ⟨[], [], 0, []⟩

/-- `total_windows = total_sentences - window_size + 1` (`windows.py` line 124),
as a Python integer (may be non-positive). -/
def total_windows (totalSentences W : Nat) : Int := (totalSentences : Int) - W + 1

/-- Text of window `i` (`windows.py` lines 130-131): the `W` sentences from
global index `i` joined by single spaces; `none` models an `IndexError` on
`global_sentences_list[j]`. -/
def window_text (gs : WinState) (W i : Nat) : Option (List Char) :=
  ((List.range W).mapM fun k => (gs.sentences.get? (i + k)).map fun p => p.1).map
    fun l => List.intercalate [' '] l

/-- The window corpus (`windows.py` lines 126-134): one (possibly failing)
window text per index in `range(total_windows)`; an empty list when
`total_windows <= 0`. -/
def corpus_window (gs : WinState) (W : Nat) : List (Option (List Char)) :=
  (List.range (total_windows gs.counter W).toNat).map (window_text gs W)

/-- `window_to_sentence_index` (`windows.py` line 134): the recorded start
sentence index of window `i`, read off the global sentence list. -/
def window_to_sentence_index (gs : WinState) (i : Nat) : Option Nat :=
  (gs.sentences.get? i).map fun p => p.2

/-- Conversion of one sentence interval to a window interval
(`windows.py` lines 141-149). -/
def conv_interval (W T : Int) (p : Int × Int) : Int × Int :=
  let extended_end := if p.2 + (W - 1) ≥ T then T - 1 else p.2 + (W - 1)
  let window_start := p.1
  let window_end := extended_end - W + 1
  (window_start, if window_end < window_start then window_start else window_end)

/-- `query_interval_window` (`windows.py` lines 137-150): per-query
conversion of all sentence intervals to window intervals. -/
def query_interval_window (W T : Int) (qs : List (List (Int × Int))) :
    List (List (Int × Int)) :=
  qs.map (List.map (conv_interval W T))

/-- Cross-query extension of one window interval (`windows.py` lines 159-166):
query `i` of `n` has its start moved left by `W - 1` (clamped at 0) unless it
is the first query, and its end moved right by `W - 1` (clamped at
`total_windows - 1`) unless it is the last. -/
def extend_interval (W tw : Int) (i n : Nat) (p : Int × Int) : Int × Int :=
  let L := if i ≠ 0 then max 0 (p.1 - (W - 1)) else p.1
  let R := if i ≠ n - 1 then
      (let r := p.2 + (W - 1); if r ≥ tw then tw - 1 else r)
    else p.2
  (L, R)

/-- `extended_query_interval` (`windows.py` lines 153-167).  The iteration
order over `fact_ids` sorted by numeric suffix coincides with list order
here, because fact ids are assigned sequentially. -/
def extended_query_interval (W tw : Int) (qs : List (List (Int × Int))) :
    List (List (Int × Int)) :=
  qs.enum.map fun q => q.2.map (extend_interval W tw q.1 qs.length)

/-- `valid_window_ids` for one query (`windows.py` lines 194-200): the window
ids whose sentence span `[start_index, start_index + W - 1]` meets some
interval of the query's extended interval list.  The Python set is modelled
by the (duplicate-free) list of ids in window order. -/
def valid_window_ids (gs : WinState) (W : Nat) (ivs : List (Int × Int)) : List Nat :=
  (List.range (total_windows gs.counter W).toNat).filter fun i =>
    match window_to_sentence_index gs i with
    | some si => ivs.any fun p =>
        decide ((si : Int) ≤ p.2) && decide ((si : Int) + W - 1 ≥ p.1)
    | none => false

/-- `valid_para_ids` for one query (`paras.py` lines 155-163): the paragraph
ids (numeric part of `"bwc-<n>"`, which always parses) lying inside some
interval of the query's interval list.  The Python set union over intervals
is modelled by the duplicate-free filtered id list. -/
def valid_para_ids (corpusIds : List Nat) (ivs : List (Int × Int)) : List Nat :=
  corpusIds.filter fun n =>
    ivs.any fun p => decide (p.1 ≤ (n : Int)) && decide ((n : Int) ≤ p.2)

/-- First-match lookup in a Nat-keyed association list. -/
def nlookup {α : Type} : List (Nat × α) → Nat → Option α
  | [], _ => none
  | p :: m, k => if p.1 = k then some p.2 else nlookup m k

/-- `window_scores[window_id] = max(window_scores[window_id], sent_rel)` on a
`defaultdict(int)` (`windows.py` line 210), modelled on an association list:
an absent key reads as 0. -/
def bumpScore (m : List (Nat × Nat)) (k v : Nat) : List (Nat × Nat) :=
  match nlookup m k with
  | some old => m.map fun p => if p.1 = k then (p.1, max old v) else p
  | none => m ++ [(k, max 0 v)]

/-- Score aggregation for one query (`windows.py` lines 202-210, identically
`paras.py` lines 165-173): every judged sentence present in the base corpus
is tested for containment against every candidate unit, keeping the running
maximum per unit.  `corpusS` maps sentence ids to raw texts, `cands` pairs
each candidate unit id with its raw text, `judg` is the query's
`sent_rel_dict` as a list of items. -/
def window_scores (corpusS : List (String × List Char))
    (cands : List (Nat × List Char)) (judg : List (String × Nat)) :
    List (Nat × Nat) :=
  judg.foldl (fun m j =>
    match alookup corpusS j.1 with
    | none => m
    | some stext =>
      cands.foldl (fun m' c =>
        if is_sentence_in_window stext c.2 then bumpScore m' c.1 j.2 else m') m) []

/-- Global state of the `sents.py` build (lines 89-128): the unit corpus
(texts in id order, the id of a unit being `"bwc-" ++ position`), the
`doc_counter`, the `processed_links` cache and the `query_interval` lists. -/
structure SentState where
  units : List (List Char)
  counter : Nat
  cache : List (String × (Int × Int))
  queryIntervals : List (List (Int × Int))
deriving Repr, DecidableEq

/-- Per-link step of the `sents.py` build loop (lines 102-126).  A reference
whose record has no `link_data` field makes Python evaluate
`preprocess_text(None)`, which raises `TypeError`; this is the `error`
outcome.  Note that, unlike `windows.py`, a source yielding zero units still
stores the interval `(doc_counter, doc_counter - 1)`. -/
def sentLink (seg : List Char → List (List Char))
    (acc : SentState × List String × List (Int × Int)) (lnk : Link) :
    Except Unit (SentState × List String × List (Int × Int)) :=
  let (st, fl, ivs) := acc
  if lnk.url ∈ fl then .ok (st, fl, ivs)
  else
    let fl' := lnk.url :: fl
    match alookup st.cache lnk.url with
    | some iv => .ok (st, fl', ivs ++ [iv])
    | none =>
      match lnk.link_data with
      | none => .error ()
      | some d =>
        let txt := preprocess_text d.toList
        let sents := (seg txt).filter fun s => s ≠ []
        let start : Int := st.counter
        let stop : Int := (st.counter : Int) + sents.length - 1
        .ok ({ units := st.units ++ sents
               counter := st.counter + sents.length
               cache := st.cache ++ [(lnk.url, (start, stop))]
               queryIntervals := st.queryIntervals }, fl', ivs ++ [(start, stop)])

/-- Per-fact step of the `sents.py` build loop (lines 95-128). -/
def sentFact (seg : List Char → List (List Char)) (st : SentState) (f : Fact) :
    Except Unit SentState := do
  let r ← f.links.foldlM (sentLink seg) (st, [], [])
  .ok { r.1 with queryIntervals := r.1.queryIntervals ++ [r.2.2] }

/-- The whole `sents.py` build over all facts; `error` models the run dying
with an uncaught `TypeError`. -/
def sentBuild (seg : List Char → List (List Char)) (facts : List Fact) :
    Except Unit SentState :=
  facts.foldlM (sentFact seg) ⟨[], 0, [], []⟩

/-- A concrete external segmenter for counterexamples and witnesses: the
whole text as a single segment (a legal output of the external
sentence-boundary provider). -/
def segOne (t : List Char) : List (List Char) := [t]

/-- Helper of `segDot`: accumulate characters until a full stop, emitting the
sentence together with its full stop. -/
def segDotGo : List Char → List Char → List (List Char)
  | [], acc => if acc = [] then [] else [acc.reverse]
  | c :: rest, acc =>
    if c = '.' then (acc.reverse ++ ['.']) :: segDotGo rest []
    else segDotGo rest (c :: acc)

/-- A concrete external segmenter for counterexamples and witnesses: split
after every full stop, so that the segments are non-overlapping substrings of
the input in document order. -/
def segDot (t : List Char) : List (List Char) := segDotGo t []

/-- A concrete two-fact input: fact 0 references a two-sentence source, fact 1
a one-sentence source, giving a global stream of 3 sentences with sentence
intervals `[(0,1)]` and `[(2,2)]`. -/
def factsD : List Fact :=
  [⟨"f0", [⟨"u0", some "a0. a1"⟩]⟩, ⟨"f1", [⟨"u1", some "b0"⟩]⟩]

/-- A concrete one-fact input whose single source yields one sentence. -/
def factsOne : List Fact := [⟨"f", [⟨"u", some "a"⟩]⟩]

/-- C1 (counterexample): with `window_size = 2` and `total_sentences = 3`, the
sentence interval `[1,1]` is converted to the window interval `(1,1)`, yet
window 0 (sentences 0-1) contains sentence 1 — it satisfies the claim's
condition `w ≤ e ∧ w + window_size - 1 ≥ s` and is a valid window index —
and still lies outside the converted interval.  The conversion therefore does
not contain the index of every window containing a sentence of `[s,e]`. -/
theorem C1_counterexample :
    conv_interval 2 3 (1, 1) = (1, 1) ∧
    ((0 : Int) ≤ 1 ∧ (0 : Int) + 2 - 1 ≥ 1) ∧
    (0 : Int) ≤ 3 - 2 ∧
    ¬((conv_interval 2 3 (1, 1)).1 ≤ 0 ∧ (0 : Int) ≤ (conv_interval 2 3 (1, 1)).2) := by
  decide

/-- C1 (amended): for every sentence interval `[s,e]` with `s ≤ e`, the
converted window interval contains the index of every valid window that
starts at a sentence of `[s,e]` — every `w` with `s ≤ w ≤ e` and
`w ≤ total_sentences - window_size`.  Windows that start before `s` but
overlap `[s,e]` are not captured by the conversion itself (the cross-query
extension step compensates for non-first queries only). -/
theorem C1_conv_contains_starting_windows (W T s e w : Int) (hse : s ≤ e)
    (h1 : s ≤ w) (h2 : w ≤ e) (h3 : w ≤ T - W) :
    (conv_interval W T (s, e)).1 ≤ w ∧ w ≤ (conv_interval W T (s, e)).2 := by
  unfold conv_interval
  dsimp only
  split_ifs <;> omega

/-- Witness for C1: window 1 starts at sentence 1 of the interval `[1,1]`
(with 3 sentences and window size 2) and lies in the converted interval. -/
theorem C1_conv_contains_starting_windows_witness :
    (conv_interval 2 3 (1, 1)).1 ≤ 1 ∧ (1 : Int) ≤ (conv_interval 2 3 (1, 1)).2 :=
  C1_conv_contains_starting_windows 2 3 1 1 1 (by decide) (by decide) (by decide)
    (by decide)

/-- Invariant of the `windows.py` sentence-stream build: the global counter
equals the length of the global sentence list, and every stored sentence
records its own list position as its global index. -/
def WInv (gs : WinState) : Prop :=
  gs.counter = gs.sentences.length ∧
  ∀ k p, gs.sentences.get? k = some p → p.2 = k

lemma foldl_preserve {α β : Type} {P : α → Prop} (f : α → β → α)
    (hf : ∀ s b, P s → P (f s b)) :
    ∀ (l : List β) (s : α), P s → P (l.foldl f s)
  | [], _, hs => hs
  | b :: l, s, hs => foldl_preserve f hf l (f s b) (hf s b hs)

lemma get?_append_enum_chunk (base : List (List Char × Nat)) (l : List (List Char))
    (hbase : ∀ k p, base.get? k = some p → p.2 = k) :
    ∀ k p, (base ++ l.enum.map fun q => (q.2, base.length + q.1)).get? k = some p →
      p.2 = k := by
  intro k p hk
  rcases Nat.lt_or_ge k base.length with hk' | hk'
  · rw [List.get?_append hk'] at hk
    exact hbase k p hk
  · rw [List.get?_append_right hk'] at hk
    rw [List.get?_map, List.enum_get?] at hk
    cases hs : l.get? (k - base.length) with
    | none => rw [hs] at hk; simp at hk
    | some a =>
      rw [hs] at hk
      have h2 := congrArg (fun o => Option.map Prod.snd o) hk
      simp at h2
      omega

lemma wInv_winLink (seg : List Char → List (List Char))
    (acc : WinState × List String × List (Int × Int)) (lnk : Link)
    (h : WInv acc.1) : WInv (winLink seg acc lnk).1 := by
  obtain ⟨gs, fl, ivs⟩ := acc
  obtain ⟨hlen, hidx⟩ := h
  replace hlen : gs.counter = gs.sentences.length := hlen
  replace hidx : ∀ k p, gs.sentences.get? k = some p → p.2 = k := hidx
  unfold winLink
  dsimp only
  split
  · exact ⟨hlen, hidx⟩
  split
  · exact ⟨hlen, hidx⟩
  split
  · exact ⟨hlen, hidx⟩
  split
  · exact ⟨hlen, hidx⟩
  refine ⟨by simp [hlen], ?_⟩
  rw [hlen]
  exact get?_append_enum_chunk gs.sentences _ hidx

lemma wInv_winFact (seg : List Char → List (List Char)) (gs : WinState) (f : Fact)
    (h : WInv gs) : WInv (winFact seg gs f) := by
  unfold winFact
  dsimp only
  have : WInv (f.links.foldl (winLink seg) (gs, [], [])).1 :=
    foldl_preserve (P := fun acc => WInv acc.1) (winLink seg)
      (fun s b hs => wInv_winLink seg s b hs) f.links (gs, [], []) h
  exact this

/-- The `windows.py` build always satisfies the index invariant. -/
lemma wInv_winBuild (seg : List Char → List (List Char)) (facts : List Fact) :
    WInv (winBuild seg facts) :=
  foldl_preserve (winFact seg) (wInv_winFact seg) facts ⟨[], [], 0, []⟩
    ⟨rfl, by intro k p hk; simp at hk⟩

/-- C10: in the `windows.py` build the k-th element appended to the global
sentence list records k as its global index, and consequently the recorded
start-sentence index of every window equals its own window index. -/
theorem C10_recorded_index_is_position (seg : List Char → List (List Char))
    (facts : List Fact) (W : Nat) (hW : 1 ≤ W) :
    (∀ k p, (winBuild seg facts).sentences.get? k = some p → p.2 = k) ∧
    (∀ i : Nat, (i : Int) < total_windows (winBuild seg facts).counter W →
      window_to_sentence_index (winBuild seg facts) i = some i) := by
  obtain ⟨hlen, hidx⟩ := wInv_winBuild seg facts
  refine ⟨hidx, ?_⟩
  intro i hi
  unfold total_windows at hi
  have hilen : i < (winBuild seg facts).sentences.length := by omega
  have hsome := List.get?_eq_get hilen
  unfold window_to_sentence_index
  rw [hsome]
  exact congrArg some (hidx i _ hsome)

/-- Witness for C10: in the concrete two-fact build, window 1 records start
sentence index 1. -/
theorem C10_recorded_index_is_position_witness :
    window_to_sentence_index (winBuild segDot factsD) 1 = some 1 :=
  (C10_recorded_index_is_position segDot factsD 2 (by decide)).2 1 (by decide)

lemma mapM_isSome {α β : Type} (f : α → Option β) :
    ∀ l : List α, (∀ a ∈ l, (f a).isSome = true) → (l.mapM f).isSome = true
  | [], _ => rfl
  | a :: l, h => by
    rw [List.mapM_cons]
    obtain ⟨b, hb⟩ := Option.isSome_iff_exists.mp (h a (List.mem_cons_self a l))
    obtain ⟨bs, hbs⟩ := Option.isSome_iff_exists.mp
      (mapM_isSome f l fun x hx => h x (List.mem_cons_of_mem a hx))
    rw [hb, hbs]
    rfl

/-- C5 (amended): with `T` global sentences and window size `W`, exactly
`T - W + 1` windows are produced when `W ≤ T` and zero when `W > T`; no
window construction step fails (every produced window text is defined); and
the per-query window-interval lists keep one interval per sentence interval
(they do not become empty when `W > T`). -/
theorem C5_window_count (seg : List Char → List (List Char)) (facts : List Fact)
    (W : Nat) (hW : 1 ≤ W) :
    ((W : Int) ≤ (winBuild seg facts).counter →
      (corpus_window (winBuild seg facts) W).length =
        (winBuild seg facts).counter - W + 1) ∧
    (((winBuild seg facts).counter : Int) < W →
      corpus_window (winBuild seg facts) W = []) ∧
    (∀ o ∈ corpus_window (winBuild seg facts) W, o.isSome = true) ∧
    (∀ (W' T : Int) (qs : List (List (Int × Int))) (i : Nat),
      ((query_interval_window W' T qs).get? i).map List.length =
        (qs.get? i).map List.length) := by
  obtain ⟨hlen, _⟩ := wInv_winBuild seg facts
  refine ⟨?_, ?_, ?_, ?_⟩
  · intro hWT
    simp only [corpus_window, List.length_map, List.length_range]
    unfold total_windows
    omega
  · intro hTW
    have : (total_windows (winBuild seg facts).counter W).toNat = 0 := by
      unfold total_windows
      omega
    simp [corpus_window, this]
  · intro o ho
    simp only [corpus_window, List.mem_map, List.mem_range] at ho
    obtain ⟨i, hi, rfl⟩ := ho
    have hiT : (i : Int) < total_windows (winBuild seg facts).counter W := by
      unfold total_windows at hi ⊢
      omega
    unfold window_text
    have hall : ∀ k ∈ List.range W,
        ((Option.map (fun p => p.1)
          ((winBuild seg facts).sentences.get? (i + k)))).isSome = true := by
      intro k hk
      rw [List.mem_range] at hk
      rw [List.get?_eq_get (show i + k < (winBuild seg facts).sentences.length by
        unfold total_windows at hiT
        omega)]
      rfl
    obtain ⟨v, hv⟩ := Option.isSome_iff_exists.mp (mapM_isSome _ _ hall)
    rw [hv]
    rfl
  · intro W' T qs i
    unfold query_interval_window
    rw [List.get?_map]
    cases qs.get? i
    · rfl
    · simp

/-- Witness for C5: the concrete two-fact build has 3 sentences, and window
size 2 yields 3 - 2 + 1 windows. -/
theorem C5_window_count_witness :
    (corpus_window (winBuild segDot factsD) 2).length =
      (winBuild segDot factsD).counter - 2 + 1 :=
  (C5_window_count segDot factsD 2 (by decide)).1 (by decide)

/-- C5 (counterexample): with one global sentence and window size 2, zero
windows are produced and nothing fails, but the query's window-interval list
is `[(0, 0)]`, not empty, contradicting the claim that every query's window
interval list is empty when `window_size > total_sentences`. -/
theorem C5_counterexample :
    corpus_window (winBuild segOne factsOne) 2 = [] ∧
    (winBuild segOne factsOne).counter = 1 ∧
    query_interval_window 2 ((winBuild segOne factsOne).counter : Int)
      (winBuild segOne factsOne).queryIntervals = [[(0, 0)]] := by
  decide

/-- C7: a reference whose URL already appeared earlier in the same fact is
dropped entirely (state and interval list unchanged), and a reference whose
URL sits in the `processed_links` cache creates no new units and appends
exactly the cached interval — in both the `windows.py` and the `sents.py`
builds. -/
theorem C7_dedup_correct (seg : List Char → List (List Char)) (gs : WinState)
    (fl : List String) (ivs : List (Int × Int)) (lnk : Link)
    (st : SentState) (flS : List String) (ivsS : List (Int × Int)) :
    (lnk.url ∈ fl → winLink seg (gs, fl, ivs) lnk = (gs, fl, ivs)) ∧
    (lnk.url ∉ fl → ∀ iv, alookup gs.cache lnk.url = some iv →
      winLink seg (gs, fl, ivs) lnk = (gs, lnk.url :: fl, ivs ++ [iv])) ∧
    (lnk.url ∈ flS → sentLink seg (st, flS, ivsS) lnk = .ok (st, flS, ivsS)) ∧
    (lnk.url ∉ flS → ∀ iv, alookup st.cache lnk.url = some iv →
      sentLink seg (st, flS, ivsS) lnk = .ok (st, lnk.url :: flS, ivsS ++ [iv])) := by
  refine ⟨?_, ?_, ?_, ?_⟩
  · intro h
    unfold winLink
    dsimp only
    rw [if_pos h]
  · intro h iv hiv
    unfold winLink
    dsimp only
    rw [if_neg h, hiv]
  · intro h
    unfold sentLink
    dsimp only
    rw [if_pos h]
  · intro h iv hiv
    unfold sentLink
    dsimp only
    rw [if_neg h, hiv]

/-- Witness for C7: concrete cache hit and concrete same-fact duplicate. -/
theorem C7_dedup_correct_witness :
    winLink segOne (⟨[], [("u", (0, 0))], 0, []⟩, [], []) ⟨"u", some "x"⟩
      = (⟨[], [("u", (0, 0))], 0, []⟩, ["u"], [(0, 0)]) ∧
    winLink segOne (⟨[], [], 0, []⟩, ["u"], []) ⟨"u", some "x"⟩
      = (⟨[], [], 0, []⟩, ["u"], []) :=
  ⟨(C7_dedup_correct segOne ⟨[], [("u", (0, 0))], 0, []⟩ [] [] ⟨"u", some "x"⟩
      ⟨[], 0, [], []⟩ [] []).2.1 (by decide) (0, 0) (by decide),
   (C7_dedup_correct segOne ⟨[], [], 0, []⟩ ["u"] [] ⟨"u", some "x"⟩
      ⟨[], 0, [], []⟩ [] []).1 (by decide)⟩

lemma extension_pointwise (W T : Int) (hW : 1 ≤ W) (i n : Nat) (s e : Int)
    (h0 : 0 ≤ s) (h1 : s ≤ e) (h2 : e ≤ T - 1) :
    0 ≤ (extend_interval W (T - W + 1) i n (conv_interval W T (s, e))).1 ∧
    (1 ≤ T - W + 1 → 0 ≤ (extend_interval W (T - W + 1) i n (conv_interval W T (s, e))).2) ∧
    (i ≠ 0 → 1 ≤ T - W + 1 →
      (extend_interval W (T - W + 1) i n (conv_interval W T (s, e))).1 ≤ T - W) ∧
    (i ≠ n - 1 → (extend_interval W (T - W + 1) i n (conv_interval W T (s, e))).2 ≤ T - W) ∧
    (i = 0 → (extend_interval W (T - W + 1) i n (conv_interval W T (s, e))).1
      = (conv_interval W T (s, e)).1) ∧
    (i = n - 1 → (extend_interval W (T - W + 1) i n (conv_interval W T (s, e))).2
      = (conv_interval W T (s, e)).2) := by
  unfold extend_interval conv_interval
  dsimp only
  split_ifs <;> simp_all <;> omega

/-- C2 (amended): after cross-query extension every interval bound is
non-negative; the upper bound `total_windows - 1` holds for the start of
every non-first query (when at least one window exists) and for the end of
every non-last query; the first query's start and the last query's end are
exactly the unextended values (never moved).  The original claim's global
containment in `[0, total_windows - 1]` fails for the first query's start and
the last query's end. -/
theorem C2_extension_bounds (W T : Int) (hW : 1 ≤ W) (qs : List (List (Int × Int)))
    (hq : ∀ l ∈ qs, ∀ p ∈ l, 0 ≤ p.1 ∧ p.1 ≤ p.2 ∧ p.2 ≤ T - 1)
    (i j : Nat) (l' : List (Int × Int)) (p' : Int × Int)
    (hl : (extended_query_interval W (T - W + 1) (query_interval_window W T qs)).get? i
      = some l')
    (hp : l'.get? j = some p') :
    ∃ p₀, ((query_interval_window W T qs).get? i).bind (fun l => l.get? j) = some p₀ ∧
      0 ≤ p'.1 ∧
      (1 ≤ T - W + 1 → 0 ≤ p'.2) ∧
      (i ≠ 0 → 1 ≤ T - W + 1 → p'.1 ≤ T - W) ∧
      (i ≠ qs.length - 1 → p'.2 ≤ T - W) ∧
      (i = 0 → p'.1 = p₀.1) ∧
      (i = qs.length - 1 → p'.2 = p₀.2) := by
  unfold extended_query_interval at hl
  rw [List.get?_map, List.enum_get?] at hl
  cases hq' : (query_interval_window W T qs).get? i with
  | none => rw [hq'] at hl; simp at hl
  | some l₀ =>
    rw [hq'] at hl
    replace hl : l₀.map (extend_interval W (T - W + 1) i
        (query_interval_window W T qs).length) = l' := by simpa using hl
    have hn : (query_interval_window W T qs).length = qs.length := by
      unfold query_interval_window
      rw [List.length_map]
    rw [hn] at hl
    subst hl
    rw [List.get?_map] at hp
    have hq'' := hq'
    unfold query_interval_window at hq''
    rw [List.get?_map] at hq''
    cases hqs : qs.get? i with
    | none => rw [hqs] at hq''; simp at hq''
    | some l₁ =>
      rw [hqs] at hq''
      replace hq'' : l₁.map (conv_interval W T) = l₀ := by simpa using hq''
      subst hq''
      rw [List.get?_map] at hp
      cases hj : l₁.get? j with
      | none => rw [hj] at hp; simp at hp
      | some p₁ =>
        rw [hj] at hp
        replace hp : extend_interval W (T - W + 1) i qs.length
            (conv_interval W T p₁) = p' := by simpa using hp
        obtain ⟨hb0, hb1, hb2⟩ := hq l₁ (List.get?_mem hqs) p₁ (List.get?_mem hj)
        obtain ⟨s, e⟩ := p₁
        refine ⟨conv_interval W T (s, e), ?_, ?_⟩
        · show (l₁.map (conv_interval W T)).get? j = some (conv_interval W T (s, e))
          rw [List.get?_map, hj]
          rfl
        · rw [← hp]
          exact extension_pointwise W T hW i qs.length s e hb0 hb1 hb2

/-- Witness for C2: the concrete two-fact build with window size 2 has 3
sentences; the non-last query 0's extended interval `(0, 1)` satisfies all
the amended bounds. -/
theorem C2_extension_bounds_witness :
    ∃ p₀, ((query_interval_window 2 3
        (winBuild segDot factsD).queryIntervals).get? 0).bind
        (fun l => l.get? 0) = some p₀ ∧
      0 ≤ ((0 : Int), (1 : Int)).1 ∧
      (1 ≤ (3 : Int) - 2 + 1 → 0 ≤ ((0 : Int), (1 : Int)).2) ∧
      ((0 : Nat) ≠ 0 → 1 ≤ (3 : Int) - 2 + 1 → ((0 : Int), (1 : Int)).1 ≤ 3 - 2) ∧
      ((0 : Nat) ≠ (winBuild segDot factsD).queryIntervals.length - 1 →
        ((0 : Int), (1 : Int)).2 ≤ 3 - 2) ∧
      ((0 : Nat) = 0 → ((0 : Int), (1 : Int)).1 = p₀.1) ∧
      ((0 : Nat) = (winBuild segDot factsD).queryIntervals.length - 1 →
        ((0 : Int), (1 : Int)).2 = p₀.2) :=
  C2_extension_bounds 2 3 (by decide) (winBuild segDot factsD).queryIntervals
    (by decide) 0 0 [((0 : Int), (1 : Int))] ((0 : Int), (1 : Int))
    (by decide) (by decide)

/-- C2 (counterexample): in the concrete two-fact build (3 sentences, window
size 2, hence 2 windows), the last query's extended window interval is
`(1, 2)`: its end 2 lies outside `[0, total_windows - 1] = [0, 1]`,
contradicting the claimed containment. -/
theorem C2_counterexample :
    extended_query_interval 2 (total_windows (winBuild segDot factsD).counter 2)
      (query_interval_window 2 ((winBuild segDot factsD).counter : Int)
        (winBuild segDot factsD).queryIntervals) = [[(0, 1)], [(1, 2)]] ∧
    total_windows (winBuild segDot factsD).counter 2 = 2 ∧
    ¬((2 : Int) ≤ 2 - 1) := by
  decide

/-- C4 (amended): the candidate set is characterized by span overlap, not by
index containment: a window id is a candidate exactly when its sentence span
`[start_index, start_index + W - 1]` meets some interval of the query's
interval list, and a paragraph id is a candidate exactly when its index lies
inside some interval.  In particular a window whose index lies outside every
listed interval can still be a candidate. -/
theorem C4_candidate_characterization (gs : WinState) (W : Nat)
    (ivs : List (Int × Int)) (ids : List Nat) :
    (∀ i : Nat, i ∈ valid_window_ids gs W ivs ↔
      i < (total_windows gs.counter W).toNat ∧
      ∃ si, window_to_sentence_index gs i = some si ∧
        ∃ p ∈ ivs, (si : Int) ≤ p.2 ∧ (si : Int) + W - 1 ≥ p.1) ∧
    (∀ n : Nat, n ∈ valid_para_ids ids ivs ↔
      n ∈ ids ∧ ∃ p ∈ ivs, p.1 ≤ (n : Int) ∧ (n : Int) ≤ p.2) := by
  constructor
  · intro i
    unfold valid_window_ids
    rw [List.mem_filter, List.mem_range]
    constructor
    · rintro ⟨h1, h2⟩
      refine ⟨h1, ?_⟩
      cases hsi : window_to_sentence_index gs i with
      | none =>
        rw [hsi] at h2
        exact absurd h2 (by simp)
      | some si =>
        rw [hsi] at h2
        rw [List.any_eq_true] at h2
        obtain ⟨p, hp, hcond⟩ := h2
        rw [Bool.and_eq_true, decide_eq_true_eq, decide_eq_true_eq] at hcond
        exact ⟨si, rfl, p, hp, hcond.1, hcond.2⟩
    · rintro ⟨h1, si, hsi, p, hp, hc1, hc2⟩
      refine ⟨h1, ?_⟩
      rw [hsi, List.any_eq_true]
      exact ⟨p, hp, by
        rw [Bool.and_eq_true, decide_eq_true_eq, decide_eq_true_eq]
        exact ⟨hc1, hc2⟩⟩
  · intro n
    unfold valid_para_ids
    rw [List.mem_filter, List.any_eq_true]
    constructor
    · rintro ⟨h1, p, hp, hcond⟩
      rw [Bool.and_eq_true, decide_eq_true_eq, decide_eq_true_eq] at hcond
      exact ⟨h1, p, hp, hcond.1, hcond.2⟩
    · rintro ⟨h1, p, hp, hc1, hc2⟩
      exact ⟨h1, p, hp, by
        rw [Bool.and_eq_true, decide_eq_true_eq, decide_eq_true_eq]
        exact ⟨hc1, hc2⟩⟩

/-- Witness for C4: in the concrete two-fact build, window 0 is a candidate
for the interval list `[(1, 2)]` via the characterization. -/
theorem C4_candidate_characterization_witness :
    0 ∈ valid_window_ids (winBuild segDot factsD) 2 [(1, 2)] :=
  ((C4_candidate_characterization (winBuild segDot factsD) 2 [(1, 2)] []).1 0).mpr
    (by refine ⟨by decide, 0, by decide, (1, 2), ?_, by decide, by decide⟩; decide)

/-- C4 (counterexample): in the concrete two-fact build the last query's
extended interval list is `[(1, 2)]`, and window 0 is a candidate (its
sentence span `[0, 1]` meets `[1, 2]`) although its index 0 lies outside
every listed interval — contradicting the claim that only units whose index
falls inside some listed interval are candidates. -/
theorem C4_counterexample :
    (extended_query_interval 2 (total_windows (winBuild segDot factsD).counter 2)
      (query_interval_window 2 ((winBuild segDot factsD).counter : Int)
        (winBuild segDot factsD).queryIntervals)).get? 1 = some [(1, 2)] ∧
    0 ∈ valid_window_ids (winBuild segDot factsD) 2 [(1, 2)] ∧
    ¬((1 : Int) ≤ 0 ∧ (0 : Int) ≤ 2) := by
  decide

/-- An interval as stored by the `sents.py`/`paras.py` build: either a proper
interval with `start ≤ end`, or the zero-unit convention `(start, start - 1)`. -/
def OkInterval (p : Int × Int) : Prop := p.1 ≤ p.2 ∨ p.2 = p.1 - 1

/-- Invariant of the `sents.py` build state: every cached interval and every
interval of every query's interval list is `OkInterval`. -/
def SInv (st : SentState) : Prop :=
  (∀ q ∈ st.cache, OkInterval q.2) ∧
  ∀ l ∈ st.queryIntervals, ∀ p ∈ l, OkInterval p

lemma alookup_mem {α : Type} {m : List (String × α)} {k : String} {v : α}
    (h : alookup m k = some v) : ∃ q ∈ m, q.2 = v := by
  induction m with
  | nil => simp [alookup] at h
  | cons p m ih =>
    unfold alookup at h
    by_cases hp : p.1 = k
    · rw [if_pos hp] at h
      exact ⟨p, List.mem_cons_self p m, by simpa using h⟩
    · rw [if_neg hp] at h
      obtain ⟨q, hq1, hq2⟩ := ih h
      exact ⟨q, List.mem_cons_of_mem p hq1, hq2⟩

lemma sentLink_inv (seg : List Char → List (List Char)) (st : SentState)
    (fl : List String) (ivs : List (Int × Int)) (lnk : Link)
    (res : SentState × List String × List (Int × Int))
    (h : sentLink seg (st, fl, ivs) lnk = .ok res)
    (hst : SInv st) (hivs : ∀ p ∈ ivs, OkInterval p) :
    SInv res.1 ∧ ∀ p ∈ res.2.2, OkInterval p := by
  obtain ⟨hc, hq⟩ := hst
  unfold sentLink at h
  dsimp only at h
  split at h
  · cases h
    exact ⟨⟨hc, hq⟩, hivs⟩
  split at h
  case _ iv hiv =>
    cases h
    refine ⟨⟨hc, hq⟩, ?_⟩
    intro p hp
    rcases List.mem_append.mp hp with hp | hp
    · exact hivs p hp
    · obtain ⟨q, hqm, hqv⟩ := alookup_mem hiv
      rw [List.mem_singleton.mp hp, ← hqv]
      exact hc q hqm
  split at h
  · cases h
  case _ d hd =>
    cases h
    refine ⟨⟨?_, hq⟩, ?_⟩
    · intro q hqm
      rcases List.mem_append.mp hqm with hm | hm
      · exact hc q hm
      · rw [List.mem_singleton.mp hm]
        unfold OkInterval
        dsimp only
        omega
    · intro p hp
      rcases List.mem_append.mp hp with hm | hm
      · exact hivs p hm
      · rw [List.mem_singleton.mp hm]
        unfold OkInterval
        dsimp only
        omega

lemma sentLinks_inv (seg : List Char → List (List Char)) :
    ∀ (links : List Link) (st : SentState) (fl : List String)
      (ivs : List (Int × Int)) (res : SentState × List String × List (Int × Int)),
    links.foldlM (sentLink seg) (st, fl, ivs) = .ok res →
    SInv st → (∀ p ∈ ivs, OkInterval p) →
    SInv res.1 ∧ ∀ p ∈ res.2.2, OkInterval p := by
  intro links
  induction links with
  | nil =>
    intro st fl ivs res h hst hivs
    replace h : Except.ok (ε := Unit) (st, fl, ivs) = .ok res := h
    cases h
    exact ⟨hst, hivs⟩
  | cons lnk rest ih =>
    intro st fl ivs res h hst hivs
    rw [List.foldlM_cons] at h
    cases hmid : sentLink seg (st, fl, ivs) lnk with
    | error e =>
      rw [hmid] at h
      exact absurd h (by simp [Bind.bind, Except.bind])
    | ok mid =>
      rw [hmid] at h
      replace h : rest.foldlM (sentLink seg) mid = .ok res := h
      obtain ⟨hmid1, hmid2⟩ := sentLink_inv seg st fl ivs lnk mid hmid hst hivs
      obtain ⟨m1, m2, m3⟩ := mid
      exact ih m1 m2 m3 res h hmid1 hmid2

lemma sentFact_inv (seg : List Char → List (List Char)) (st : SentState) (f : Fact)
    (st' : SentState) (h : sentFact seg st f = .ok st') (hst : SInv st) : SInv st' := by
  unfold sentFact at h
  cases hmid : f.links.foldlM (sentLink seg) (st, [], []) with
  | error e =>
    rw [hmid] at h
    exact absurd h (by simp [Bind.bind, Except.bind])
  | ok r =>
    rw [hmid] at h
    replace h : Except.ok (ε := Unit)
        { r.1 with queryIntervals := r.1.queryIntervals ++ [r.2.2] } = .ok st' := h
    cases h
    obtain ⟨⟨hc, hq⟩, hivs⟩ :=
      sentLinks_inv seg f.links st [] [] r hmid hst (by intro p hp; simp at hp)
    refine ⟨hc, ?_⟩
    intro l hl
    rcases List.mem_append.mp hl with hm | hm
    · exact hq l hm
    · rw [List.mem_singleton.mp hm]
      exact hivs

/-- C8 (amended): in the `sents.py` build, every interval stored in the
per-URL cache and in every query's interval list satisfies `start ≤ end` or
is the zero-unit convention `end = start - 1`; the strict invariant
`start ≤ end` fails exactly for source documents yielding zero units. -/
theorem C8_interval_invariant (seg : List Char → List (List Char))
    (facts : List Fact) (st : SentState) (h : sentBuild seg facts = .ok st) :
    (∀ q ∈ st.cache, q.2.1 ≤ q.2.2 ∨ q.2.2 = q.2.1 - 1) ∧
    (∀ l ∈ st.queryIntervals, ∀ p ∈ l, p.1 ≤ p.2 ∨ p.2 = p.1 - 1) := by
  suffices hs : SInv st by exact hs
  unfold sentBuild at h
  revert h
  suffices hgen : ∀ (fs : List Fact) (st₀ : SentState),
      fs.foldlM (sentFact seg) st₀ = .ok st → SInv st₀ → SInv st by
    intro h
    exact hgen facts ⟨[], 0, [], []⟩ h
      ⟨by intro q hq; simp at hq, by intro l hl; simp at hl⟩
  intro fs
  induction fs with
  | nil =>
    intro st₀ h hst₀
    replace h : Except.ok (ε := Unit) st₀ = .ok st := h
    cases h
    exact hst₀
  | cons f rest ih =>
    intro st₀ h hst₀
    rw [List.foldlM_cons] at h
    cases hmid : sentFact seg st₀ f with
    | error e =>
      rw [hmid] at h
      exact absurd h (by simp [Bind.bind, Except.bind])
    | ok mid =>
      rw [hmid] at h
      replace h : rest.foldlM (sentFact seg) mid = .ok st := h
      exact ih mid h (sentFact_inv seg st₀ f mid hmid hst₀)

/-- Witness for C8: the concrete one-fact build stores the interval `(0, 0)`
for its single one-sentence source, and it satisfies the amended invariant. -/
theorem C8_interval_invariant_witness :
    (0 : Int) ≤ 0 ∨ (0 : Int) = 0 - 1 :=
  (C8_interval_invariant segOne factsOne ⟨["a".toList], 1, [("u", (0, 0))], [[(0, 0)]]⟩
    (by rfl)).1 ("u", (0, 0)) (by decide)

/-- C8 (counterexample): a referenced source whose text is empty yields zero
units, and the `sents.py` build stores the interval `(0, -1)` for it — in the
cache and in the query's interval list — violating `start ≤ end`. -/
theorem C8_counterexample :
    (sentBuild segOne [⟨"f", [⟨"u", some ""⟩]⟩]).toOption.map SentState.cache
      = some [("u", ((0 : Int), (-1 : Int)))] ∧
    (sentBuild segOne [⟨"f", [⟨"u", some ""⟩]⟩]).toOption.map SentState.queryIntervals
      = some [[((0 : Int), (-1 : Int))]] ∧
    ¬((0 : Int) ≤ -1) := by
  decide

/-- C9: a reference with no `link_data` field makes the `sents.py` build fail
(Python evaluates `preprocess_text(None)` and raises `TypeError`, modelled as
the `error` outcome, so the later reference "v" is never processed), whereas
the `windows.py` build — matching the specified behaviour — skips the
reference and continues with the rest of the query. -/
theorem C9_missing_source_divergence :
    (sentBuild segOne [⟨"f", [⟨"u", none⟩, ⟨"v", some "b"⟩]⟩]).toOption.isNone = true ∧
    winBuild segOne [⟨"f", [⟨"u", none⟩, ⟨"v", some "b"⟩]⟩]
      = ⟨[("b".toList, 0)], [("v", (0, 0))], 1, [[(0, 0)]]⟩ := by
  decide

/-- Does the judgment `j` contribute to the unit with text `wtext`: its
sentence id must be present in the base corpus and the normalized sentence
text must be contained in the normalized unit text. -/
def contributes (corpusS : List (String × List Char)) (wtext : List Char)
    (j : String × Nat) : Bool :=
  match alookup corpusS j.1 with
  | some stext => is_sentence_in_window stext wtext
  | none => false

/-- The scores of all judgments contributing to the unit with text `wtext`. -/
def contribScores (corpusS : List (String × List Char)) (wtext : List Char)
    (judg : List (String × Nat)) : List Nat :=
  (judg.filter (contributes corpusS wtext)).map Prod.snd

/-- Running-maximum accumulation of the contributing scores over the
judgment list, starting from an optional current entry. -/
def accOpt (corpusS : List (String × List Char)) (wtext : List Char) :
    List (String × Nat) → Option Nat → Option Nat
  | [], o => o
  | j :: js, o =>
    accOpt corpusS wtext js
      (if contributes corpusS wtext j then some (max (o.getD 0) j.2) else o)

lemma nlookup_none_iff {α : Type} (m : List (Nat × α)) (k : Nat) :
    nlookup m k = none ↔ k ∉ m.map Prod.fst := by
  induction m with
  | nil => simp [nlookup]
  | cons a m ih =>
    unfold nlookup
    by_cases h : a.1 = k
    · simp [h]
    · rw [if_neg h, List.map_cons, List.mem_cons, ih]
      constructor
      · intro hn
        rintro (rfl | hm)
        · exact h rfl
        · exact hn hm
      · intro hn hm
        exact hn (Or.inr hm)

lemma nlookup_cons {α : Type} (a : Nat × α) (m : List (Nat × α)) (k : Nat) :
    nlookup (a :: m) k = if a.1 = k then some a.2 else nlookup m k := rfl

lemma nlookup_append {α : Type} (m l : List (Nat × α)) (k : Nat) :
    nlookup (m ++ l) k =
      match nlookup m k with
      | some v => some v
      | none => nlookup l k := by
  induction m with
  | nil => rfl
  | cons a m ih =>
    rw [List.cons_append, nlookup_cons, nlookup_cons]
    by_cases h : a.1 = k
    · rw [if_pos h]
      rw [if_pos h]
    · rw [if_neg h]
      rw [if_neg h]
      exact ih

lemma nlookup_map_update (m : List (Nat × Nat)) (k v old : Nat)
    (h : nlookup m k = some old) :
    nlookup (m.map fun p => if p.1 = k then (p.1, max old v) else p) k
      = some (max old v) := by
  induction m with
  | nil => simp [nlookup] at h
  | cons a m ih =>
    rw [nlookup_cons] at h
    rw [List.map_cons, nlookup_cons]
    by_cases ha : a.1 = k
    · rw [if_pos ha]
      show (if a.1 = k then some (max old v)
          else nlookup (m.map fun p => if p.1 = k then (p.1, max old v) else p) k)
          = some (max old v)
      rw [if_pos ha]
    · rw [if_neg ha] at h
      rw [if_neg ha]
      show (if a.1 = k then some a.2
          else nlookup (m.map fun p => if p.1 = k then (p.1, max old v) else p) k)
          = some (max old v)
      rw [if_neg ha]
      exact ih h

lemma nlookup_map_update_other (m : List (Nat × Nat)) (k k' v old : Nat)
    (hk : k' ≠ k) :
    nlookup (m.map fun p => if p.1 = k then (p.1, max old v) else p) k'
      = nlookup m k' := by
  induction m with
  | nil => rfl
  | cons a m ih =>
    rw [List.map_cons, nlookup_cons, nlookup_cons]
    by_cases ha : a.1 = k
    · rw [if_pos ha]
      have hne : ¬(a.1 = k') := by rw [ha]; exact fun hh => hk hh.symm
      show (if a.1 = k' then some (max old v)
          else nlookup (m.map fun p => if p.1 = k then (p.1, max old v) else p) k')
          = if a.1 = k' then some a.2 else nlookup m k'
      rw [if_neg hne, if_neg hne]
      exact ih
    · rw [if_neg ha]
      show (if a.1 = k' then some a.2
          else nlookup (m.map fun p => if p.1 = k then (p.1, max old v) else p) k')
          = if a.1 = k' then some a.2 else nlookup m k'
      by_cases ha' : a.1 = k'
      · rw [if_pos ha', if_pos ha']
      · rw [if_neg ha', if_neg ha']
        exact ih

lemma nlookup_bump_self (m : List (Nat × Nat)) (k v : Nat) :
    nlookup (bumpScore m k v) k = some (max ((nlookup m k).getD 0) v) := by
  unfold bumpScore
  cases h : nlookup m k with
  | none =>
    rw [nlookup_append, h]
    rw [nlookup_cons, if_pos rfl]
    rfl
  | some old =>
    simp only [Option.getD_some]
    exact nlookup_map_update m k v old h

lemma nlookup_bump_other (m : List (Nat × Nat)) (k k' v : Nat) (hk : k' ≠ k) :
    nlookup (bumpScore m k v) k' = nlookup m k' := by
  unfold bumpScore
  cases h : nlookup m k with
  | none =>
    rw [nlookup_append]
    cases h' : nlookup m k' with
    | some w => rfl
    | none =>
      rw [nlookup_cons]
      dsimp only
      rw [if_neg (fun hh => hk hh.symm)]
      rfl
  | some old => exact nlookup_map_update_other m k k' v old hk

lemma keys_bump (m : List (Nat × Nat)) (k v : Nat)
    (h : (m.map Prod.fst).Nodup) : ((bumpScore m k v).map Prod.fst).Nodup := by
  unfold bumpScore
  cases hl : nlookup m k with
  | none =>
    rw [List.map_append, List.nodup_append]
    refine ⟨h, by simp, ?_⟩
    intro a ha hb
    simp only [List.map_cons, List.map_nil, List.mem_singleton] at hb
    rw [hb] at ha
    exact (nlookup_none_iff m k).mp hl ha
  | some old =>
    have heq : ((m.map fun p => if p.1 = k then (p.1, max old v) else p).map Prod.fst)
        = m.map Prod.fst := by
      rw [List.map_map]
      apply List.map_congr_left
      intro p _
      by_cases hp : p.1 = k
      · simp [hp]
      · simp [hp]
    rw [heq]
    exact h

lemma contribScores_cons_pos (corpusS : List (String × List Char)) (wtext : List Char)
    (j : String × Nat) (js : List (String × Nat))
    (hc : contributes corpusS wtext j = true) :
    contribScores corpusS wtext (j :: js) = j.2 :: contribScores corpusS wtext js := by
  simp [contribScores, List.filter_cons, hc]

lemma contribScores_cons_neg (corpusS : List (String × List Char)) (wtext : List Char)
    (j : String × Nat) (js : List (String × Nat))
    (hc : ¬contributes corpusS wtext j = true) :
    contribScores corpusS wtext (j :: js) = contribScores corpusS wtext js := by
  simp [contribScores, List.filter_cons, hc]

lemma accOpt_none_iff (corpusS : List (String × List Char)) (wtext : List Char) :
    ∀ (js : List (String × Nat)) (o : Option Nat),
    accOpt corpusS wtext js o = none ↔
      (o = none ∧ contribScores corpusS wtext js = []) := by
  intro js
  induction js with
  | nil =>
    intro o
    simp [accOpt, contribScores]
  | cons j js ih =>
    intro o
    by_cases hc : contributes corpusS wtext j = true
    · rw [accOpt, if_pos hc, ih, contribScores_cons_pos corpusS wtext j js hc]
      simp
    · rw [accOpt, if_neg hc, ih, contribScores_cons_neg corpusS wtext j js hc]

lemma accOpt_some (corpusS : List (String × List Char)) (wtext : List Char) :
    ∀ (js : List (String × Nat)) (o : Option Nat) (v : Nat),
    accOpt corpusS wtext js o = some v →
    (∀ u ∈ contribScores corpusS wtext js, u ≤ v) ∧
    (v ∈ contribScores corpusS wtext js ∨ o = some v) ∧
    (∀ u, o = some u → u ≤ v) := by
  intro js
  induction js with
  | nil =>
    intro o v h
    replace h : o = some v := h
    refine ⟨by simp [contribScores], Or.inr h, ?_⟩
    intro u hu
    rw [h] at hu
    simp only [Option.some.injEq] at hu
    omega
  | cons j js ih =>
    intro o v h
    by_cases hc : contributes corpusS wtext j = true
    · rw [accOpt, if_pos hc] at h
      obtain ⟨h1, h2, h3⟩ := ih _ v h
      have hmax : max (o.getD 0) j.2 ≤ v := h3 _ rfl
      rw [contribScores_cons_pos corpusS wtext j js hc]
      refine ⟨?_, ?_, ?_⟩
      · intro u hu
        rcases List.mem_cons.mp hu with rfl | hu'
        · omega
        · exact h1 u hu'
      · rcases h2 with hv | hv
        · exact Or.inl (List.mem_cons_of_mem _ hv)
        · simp only [Option.some.injEq] at hv
          cases o with
          | none =>
            left
            simp only [Option.getD_none] at hv
            have : v = j.2 := by omega
            rw [this]
            exact List.mem_cons_self _ _
          | some u₀ =>
            simp only [Option.getD_some] at hv
            rcases max_choice u₀ j.2 with hmc | hmc
            · right
              rw [hmc] at hv
              rw [hv]
            · left
              rw [hmc] at hv
              rw [← hv]
              exact List.mem_cons_self _ _
      · intro u hu
        have : u ≤ max (o.getD 0) j.2 := by
          rw [hu]
          simp
        omega
    · rw [accOpt, if_neg hc] at h
      obtain ⟨h1, h2, h3⟩ := ih _ v h
      rw [contribScores_cons_neg corpusS wtext j js hc]
      exact ⟨h1, h2, h3⟩

lemma inner_fold_other (stext : List Char) (r w : Nat) :
    ∀ (cs : List (Nat × List Char)) (m : List (Nat × Nat)),
    (∀ c ∈ cs, c.1 ≠ w) →
    nlookup (cs.foldl (fun m' c =>
      if is_sentence_in_window stext c.2 then bumpScore m' c.1 r else m') m) w
      = nlookup m w := by
  intro cs
  induction cs with
  | nil => intro m _; rfl
  | cons c cs ih =>
    intro m hcs
    rw [List.foldl_cons]
    rw [ih _ fun x hx => hcs x (List.mem_cons_of_mem c hx)]
    by_cases hm : is_sentence_in_window stext c.2 = true
    · rw [if_pos hm]
      exact nlookup_bump_other m c.1 w r (Ne.symm (hcs c (List.mem_cons_self c cs)))
    · rw [if_neg hm]

lemma inner_fold_self (stext : List Char) (r w : Nat) (wtext : List Char) :
    ∀ (cs : List (Nat × List Char)) (m : List (Nat × Nat)),
    (cs.map Prod.fst).Nodup → (w, wtext) ∈ cs →
    nlookup (cs.foldl (fun m' c =>
      if is_sentence_in_window stext c.2 then bumpScore m' c.1 r else m') m) w
      = if is_sentence_in_window stext wtext
        then some (max ((nlookup m w).getD 0) r) else nlookup m w := by
  intro cs
  induction cs with
  | nil => intro m _ hmem; simp at hmem
  | cons c cs ih =>
    intro m hnd hmem
    rw [List.map_cons] at hnd
    obtain ⟨hni, hnd'⟩ := List.nodup_cons.mp hnd
    rw [List.foldl_cons]
    rcases List.mem_cons.mp hmem with heq | hmem'
    · have hcs : ∀ x ∈ cs, x.1 ≠ w := by
        intro x hx hxw
        apply hni
        have : c.1 = w := by rw [← heq]
        rw [this, ← hxw]
        exact List.mem_map.mpr ⟨x, hx, rfl⟩
      rw [inner_fold_other stext r w cs _ hcs]
      rw [← heq]
      dsimp only
      by_cases hm : is_sentence_in_window stext wtext = true
      · rw [if_pos hm, if_pos hm]
        exact nlookup_bump_self m w r
      · rw [if_neg hm, if_neg hm]
    · have hcw : c.1 ≠ w := by
        intro hc
        apply hni
        rw [hc]
        exact List.mem_map.mpr ⟨(w, wtext), hmem', rfl⟩
      rw [ih _ hnd' hmem']
      have hstep : nlookup
          (if is_sentence_in_window stext c.2 then bumpScore m c.1 r else m) w
          = nlookup m w := by
        by_cases hm : is_sentence_in_window stext c.2 = true
        · rw [if_pos hm]
          exact nlookup_bump_other m c.1 w r (Ne.symm hcw)
        · rw [if_neg hm]
      rw [hstep]

lemma inner_fold_keys (stext : List Char) (r : Nat)
    (cs : List (Nat × List Char)) (m : List (Nat × Nat))
    (h : (m.map Prod.fst).Nodup) :
    (((cs.foldl (fun m' c =>
      if is_sentence_in_window stext c.2 then bumpScore m' c.1 r else m') m)).map
        Prod.fst).Nodup := by
  refine foldl_preserve (P := fun m => (m.map Prod.fst).Nodup) _ ?_ cs m h
  intro s c hs
  by_cases hm : is_sentence_in_window stext c.2 = true
  · rw [if_pos hm]
    exact keys_bump s c.1 r hs
  · rw [if_neg hm]
    exact hs

lemma outer_fold_lookup (corpusS : List (String × List Char))
    (cands : List (Nat × List Char)) (w : Nat) (wtext : List Char)
    (hnd : (cands.map Prod.fst).Nodup) (hmem : (w, wtext) ∈ cands) :
    ∀ (js : List (String × Nat)) (m : List (Nat × Nat)),
    nlookup (js.foldl (fun m j =>
      match alookup corpusS j.1 with
      | none => m
      | some stext =>
        cands.foldl (fun m' c =>
          if is_sentence_in_window stext c.2 then bumpScore m' c.1 j.2 else m') m) m) w
      = accOpt corpusS wtext js (nlookup m w) := by
  intro js
  induction js with
  | nil => intro m; rfl
  | cons j js ih =>
    intro m
    rw [List.foldl_cons]
    rw [ih]
    have hstep : nlookup (match alookup corpusS j.1 with
        | none => m
        | some stext =>
          cands.foldl (fun m' c =>
            if is_sentence_in_window stext c.2 then bumpScore m' c.1 j.2 else m') m) w
        = if contributes corpusS wtext j
          then some (max ((nlookup m w).getD 0) j.2) else nlookup m w := by
      unfold contributes
      cases hc : alookup corpusS j.1 with
      | none => simp
      | some stext =>
        rw [inner_fold_self stext j.2 w wtext cands m hnd hmem]
    rw [hstep]
    rfl

lemma outer_fold_keys (corpusS : List (String × List Char))
    (cands : List (Nat × List Char)) (js : List (String × Nat))
    (m : List (Nat × Nat)) (h : (m.map Prod.fst).Nodup) :
    ((js.foldl (fun m j =>
      match alookup corpusS j.1 with
      | none => m
      | some stext =>
        cands.foldl (fun m' c =>
          if is_sentence_in_window stext c.2 then bumpScore m' c.1 j.2 else m') m) m).map
        Prod.fst).Nodup := by
  refine foldl_preserve (P := fun m => (m.map Prod.fst).Nodup) _ ?_ js m h
  intro s j hs
  cases hc : alookup corpusS j.1 with
  | none => exact hs
  | some stext => exact inner_fold_keys stext j.2 cands s hs

/-- C3: for every query and every candidate derived unit, the retained score
is the maximum over all contributing base-level judgments — those whose
sentence id is in the base corpus and whose normalized sentence text is
contained in the unit's normalized text: the retained score is an upper
bound of the contributing scores and is itself one of them (so two matching
sentences with scores 2 and 4 yield 4), no entry exists when nothing
contributes, and at most one score per (query, unit) pair is emitted. -/
theorem C3_score_is_max_of_contributing (corpusS : List (String × List Char))
    (cands : List (Nat × List Char)) (judg : List (String × Nat))
    (w : Nat) (wtext : List Char)
    (hnd : (cands.map Prod.fst).Nodup) (hmem : (w, wtext) ∈ cands) :
    (nlookup (window_scores corpusS cands judg) w = none ↔
      contribScores corpusS wtext judg = []) ∧
    (∀ v, nlookup (window_scores corpusS cands judg) w = some v →
      (∀ u ∈ contribScores corpusS wtext judg, u ≤ v) ∧
      v ∈ contribScores corpusS wtext judg) ∧
    ((window_scores corpusS cands judg).map Prod.fst).Nodup := by
  have hout : nlookup (window_scores corpusS cands judg) w
      = accOpt corpusS wtext judg none := by
    unfold window_scores
    exact outer_fold_lookup corpusS cands w wtext hnd hmem judg []
  refine ⟨?_, ?_, ?_⟩
  · rw [hout, accOpt_none_iff]
    simp
  · intro v hv
    rw [hout] at hv
    obtain ⟨h1, h2, _⟩ := accOpt_some corpusS wtext judg none v hv
    refine ⟨h1, ?_⟩
    rcases h2 with h2 | h2
    · exact h2
    · exact absurd h2 (by simp)
  · exact outer_fold_keys corpusS cands judg [] (by simp)

/-- Witness for C3: two sentences with scores 2 and 4 both contained in the
single candidate window's text propagate the score 4 = max {2, 4}. -/
theorem C3_score_is_max_of_contributing_witness :
    nlookup (window_scores [("s1", "ab".toList), ("s2", "cd".toList)]
      [(0, "ab cd".toList)] [("s1", 2), ("s2", 4)]) 0 = some 4 ∧
    (4 : Nat) ∈ contribScores [("s1", "ab".toList), ("s2", "cd".toList)]
      "ab cd".toList [("s1", 2), ("s2", 4)] := by
  have h := C3_score_is_max_of_contributing
    [("s1", "ab".toList), ("s2", "cd".toList)] [(0, "ab cd".toList)]
    [("s1", 2), ("s2", 4)] 0 "ab cd".toList (by decide) (by decide)
  refine ⟨?_, by decide⟩
  cases hv : nlookup (window_scores [("s1", "ab".toList), ("s2", "cd".toList)]
      [(0, "ab cd".toList)] [("s1", 2), ("s2", 4)]) 0 with
  | none =>
    have := h.1.mp hv
    exact absurd this (by decide)
  | some v =>
    obtain ⟨hub, hmemv⟩ := h.2.1 v hv
    have h2 : (2 : Nat) ∈ contribScores [("s1", "ab".toList), ("s2", "cd".toList)]
        "ab cd".toList [("s1", 2), ("s2", 4)] := by decide
    have h4 : (4 : Nat) ∈ contribScores [("s1", "ab".toList), ("s2", "cd".toList)]
        "ab cd".toList [("s1", 2), ("s2", 4)] := by decide
    have hle : v ≤ 4 := by
      have hall : ∀ u ∈ contribScores [("s1", "ab".toList), ("s2", "cd".toList)]
          "ab cd".toList [("s1", 2), ("s2", 4)], u ≤ 4 := by decide
      exact hall v hmemv
    have hge : 4 ≤ v := hub 4 h4
    have : v = 4 := le_antisymm hle hge
    rw [this]

/-- C6 (counterexample): `preprocess_text` is not idempotent.  On the input
"combining acute, space, a" the first pass strips nothing (the leading
combining mark is not whitespace, so `strip()` keeps the space behind it) and
only drops the mark, leaving " a"; the second pass then strips the now
leading space, giving "a" ≠ " a". -/
theorem C6_counterexample :
    preprocess_text (preprocess_text ['\u0301', ' ', 'a'])
      ≠ preprocess_text ['\u0301', ' ', 'a'] ∧
    preprocess_text ['\u0301', ' ', 'a'] = [' ', 'a'] ∧
    preprocess_text [' ', 'a'] = ['a'] := by
  decide

/-- The characters that a canonical decomposition can produce besides the
character itself. -/
def nfdVals : List Char := ['и', '\u0306', 'е', '\u0308', 'И', 'Е', 'a', 'e', '\u0301']

/-- The characters that canonical composition can produce. -/
def composedVals : List Char := ['й', 'Й', 'ё', 'Ё', 'á', 'é']

lemma nfdChar_mem {c d : Char} (h : d ∈ nfdChar c) : d = c ∨ d ∈ nfdVals := by
  unfold nfdChar at h
  split_ifs at h <;> simp_all [nfdVals] <;> rcases h with rfl | rfl <;> decide

lemma composePair_some {a b c : Char} (h : composePair a b = some c) :
    c ∈ composedVals := by
  unfold composePair at h
  split_ifs at h <;> simp_all [composedVals] <;> subst h <;> decide

lemma composePair_none_right (a c : Char) (hc : isCombining c = false) :
    composePair a c = none := by
  have h1 : ¬c = '\u0306' := fun h => by rw [h] at hc; exact absurd hc (by decide)
  have h2 : ¬c = '\u0308' := fun h => by rw [h] at hc; exact absurd hc (by decide)
  have h3 : ¬c = '\u0301' := fun h => by rw [h] at hc; exact absurd hc (by decide)
  unfold composePair
  rw [if_neg h1, if_neg h2, if_neg h3]

lemma mem_pyStrip {c : Char} {t : List Char} (h : c ∈ pyStrip t) : c ∈ t := by
  unfold pyStrip at h
  rw [List.mem_reverse] at h
  have h1 := (List.dropWhile_sublist (l := (t.dropWhile pyIsSpace).reverse)
    (p := pyIsSpace)).mem h
  rw [List.mem_reverse] at h1
  exact (List.dropWhile_sublist (l := t) (p := pyIsSpace)).mem h1

lemma mem_nfd {d : Char} {t : List Char} (h : d ∈ nfd t) :
    ∃ c ∈ t, d ∈ nfdChar c := by
  unfold nfd at h
  exact List.mem_flatMap.mp h

lemma mem_composeAux {d : Char} :
    ∀ (l : List Char) (a : Char), d ∈ composeAux a l →
      d = a ∨ d ∈ l ∨ d ∈ composedVals := by
  intro l
  induction l with
  | nil =>
    intro a h
    replace h : d ∈ [a] := h
    simp at h
    exact Or.inl h
  | cons b rest ih =>
    intro a h
    cases hcp : composePair a b with
    | some c =>
      rw [show composeAux a (b :: rest)
          = (match composePair a b with
             | some c => composeAux c rest
             | none => a :: composeAux b rest) from rfl, hcp] at h
      change d ∈ composeAux c rest at h
      rcases ih c h with rfl | h' | h'
      · exact Or.inr (Or.inr (composePair_some hcp))
      · exact Or.inr (Or.inl (List.mem_cons_of_mem b h'))
      · exact Or.inr (Or.inr h')
    | none =>
      rw [show composeAux a (b :: rest)
          = (match composePair a b with
             | some c => composeAux c rest
             | none => a :: composeAux b rest) from rfl, hcp] at h
      change d ∈ a :: composeAux b rest at h
      rcases List.mem_cons.mp h with rfl | h'
      · exact Or.inl rfl
      · rcases ih b h' with heq | h'' | h''
        · rw [heq]
          exact Or.inr (Or.inl (List.mem_cons_self b rest))
        · exact Or.inr (Or.inl (List.mem_cons_of_mem b h''))
        · exact Or.inr (Or.inr h'')

lemma mem_compose {d : Char} {l : List Char} (h : d ∈ compose l) :
    d ∈ l ∨ d ∈ composedVals := by
  cases l with
  | nil => simp [compose] at h
  | cons a rest =>
    replace h : d ∈ composeAux a rest := h
    rcases mem_composeAux rest a h with heq | h' | h'
    · rw [heq]
      exact Or.inl (List.mem_cons_self a rest)
    · exact Or.inl (List.mem_cons_of_mem a h')
    · exact Or.inr h'

lemma mem_stripDiacritics {d : Char} {t : List Char} (h : d ∈ stripDiacritics t) :
    ∃ c ∈ t, d ∈ stripDiacriticsChar c := by
  unfold stripDiacritics at h
  exact List.mem_flatMap.mp h

lemma combfree_stripDiacriticsChar {c d : Char} (h : d ∈ stripDiacriticsChar c) :
    isCombining d = false := by
  unfold stripDiacriticsChar at h
  split_ifs at h with hc
  · have : c = 'й' ∨ c = 'ё' := by
      revert hc
      unfold excludeChars
      intro hc
      simpa using hc
    rcases this with rfl | rfl
    · simp only [List.mem_singleton] at h
      rw [h]
      decide
    · simp only [List.mem_singleton] at h
      rw [h]
      decide
  · rw [List.mem_filter] at h
    have := h.2
    simpa using this

/-- Every character of a `preprocess_text` output is non-combining. -/
lemma combfree_preprocess (t : List Char) :
    ∀ c ∈ preprocess_text t, isCombining c = false := by
  intro c hc
  unfold preprocess_text at hc
  obtain ⟨c₁, _, hmem⟩ := mem_stripDiacritics hc
  exact combfree_stripDiacriticsChar hmem

lemma nbspSub_no_nbsp (t : List Char) : ∀ c ∈ nbspSub t, c ≠ '\u00A0' := by
  intro c hc
  unfold nbspSub at hc
  rw [List.mem_map] at hc
  obtain ⟨c₀, _, rfl⟩ := hc
  by_cases h0 : c₀ = '\u00A0'
  · rw [if_pos h0]
    decide
  · rw [if_neg h0]
    exact h0

lemma nfdChar_no_nbsp {c d : Char} (hc : c ≠ '\u00A0') (h : d ∈ nfdChar c) :
    d ≠ '\u00A0' := by
  rcases nfdChar_mem h with heq | hv
  · rw [heq]
    exact hc
  · intro hda
    rw [hda] at hv
    exact absurd hv (by decide)

/-- Every character of a `preprocess_text` output differs from U+00A0. -/
lemma preprocess_no_nbsp (t : List Char) :
    ∀ c ∈ preprocess_text t, c ≠ '\u00A0' := by
  intro c hc
  unfold preprocess_text at hc
  obtain ⟨c₁, hc₁, hmem⟩ := mem_stripDiacritics hc
  have hc₁n : c₁ ≠ '\u00A0' := by
    rcases mem_compose hc₁ with hin | hvals
    · obtain ⟨c₂, hc₂, hd⟩ := mem_nfd hin
      have hc₂n : c₂ ≠ '\u00A0' := nbspSub_no_nbsp _ c₂ (mem_pyStrip hc₂)
      exact nfdChar_no_nbsp hc₂n hd
    · intro he
      rw [he] at hvals
      exact absurd hvals (by decide)
  unfold stripDiacriticsChar at hmem
  split_ifs at hmem with hex
  · rw [List.mem_singleton] at hmem
    rw [hmem]
    exact hc₁n
  · rw [List.mem_filter] at hmem
    exact nfdChar_no_nbsp hc₁n hmem.1

lemma accentSub_id : ∀ t : List Char, '\u0301' ∉ t → accentSub t = t
  | [] => fun _ => rfl
  | [c] => fun _ => rfl
  | c :: d :: rest => fun h => by
    have hd : ¬(c = 'а' ∧ d = '\u0301') := by
      rintro ⟨-, rfl⟩
      exact h (List.mem_cons_of_mem c (List.mem_cons_self _ _))
    show (if c = 'а' ∧ d = '\u0301' then 'а' :: accentSub rest
        else c :: accentSub (d :: rest)) = c :: d :: rest
    rw [if_neg hd]
    rw [accentSub_id (d :: rest) fun hm => h (List.mem_cons_of_mem c hm)]

lemma nbspSub_id (t : List Char) (h : ∀ c ∈ t, c ≠ '\u00A0') : nbspSub t = t := by
  unfold nbspSub
  have heq : t.map (fun c => if c = '\u00A0' then ' ' else c) = t.map id :=
    List.map_congr_left fun c hc => by rw [if_neg (h c hc)]; rfl
  rw [heq, List.map_id]

lemma no_acute_of_combfree {t : List Char}
    (h : ∀ c ∈ t, isCombining c = false) : '\u0301' ∉ t :=
  fun hin => absurd (h _ hin) (by decide)

lemma composeAux_nfdChar (a c : Char) (hc : isCombining c = false) (l : List Char) :
    composeAux a (nfdChar c ++ l) = a :: composeAux c l := by
  by_cases h1 : c = 'й'
  · subst h1
    rfl
  by_cases h2 : c = 'ё'
  · subst h2
    rfl
  by_cases h3 : c = 'Й'
  · subst h3
    rfl
  by_cases h4 : c = 'Ё'
  · subst h4
    rfl
  by_cases h5 : c = 'á'
  · subst h5
    rfl
  by_cases h6 : c = 'é'
  · subst h6
    rfl
  have hnf : nfdChar c = [c] := by
    unfold nfdChar
    rw [if_neg h1, if_neg h2, if_neg h3, if_neg h4, if_neg h5, if_neg h6]
  rw [hnf]
  show (match composePair a c with
    | some x => composeAux x l
    | none => a :: composeAux c l) = a :: composeAux c l
  rw [composePair_none_right a c hc]

lemma compose_nfdChar (c : Char) (hc : isCombining c = false) (l : List Char) :
    compose (nfdChar c ++ l) = composeAux c l := by
  by_cases h1 : c = 'й'
  · subst h1
    rfl
  by_cases h2 : c = 'ё'
  · subst h2
    rfl
  by_cases h3 : c = 'Й'
  · subst h3
    rfl
  by_cases h4 : c = 'Ё'
  · subst h4
    rfl
  by_cases h5 : c = 'á'
  · subst h5
    rfl
  by_cases h6 : c = 'é'
  · subst h6
    rfl
  have hnf : nfdChar c = [c] := by
    unfold nfdChar
    rw [if_neg h1, if_neg h2, if_neg h3, if_neg h4, if_neg h5, if_neg h6]
  rw [hnf]
  rfl

lemma composeAux_nfd : ∀ t : List Char, (∀ c ∈ t, isCombining c = false) →
    ∀ a : Char, composeAux a (nfd t) = a :: t := by
  intro t
  induction t with
  | nil =>
    intro _ a
    rfl
  | cons c t' ih =>
    intro h a
    rw [show nfd (c :: t') = nfdChar c ++ nfd t' from rfl]
    rw [composeAux_nfdChar a c (h c (List.mem_cons_self c t')) (nfd t')]
    rw [ih (fun x hx => h x (List.mem_cons_of_mem c hx)) c]

/-- NFC is the identity on texts without combining marks (the recomposition
of the decomposition restores every character). -/
lemma nfc_id (t : List Char) (h : ∀ c ∈ t, isCombining c = false) :
    nfc t = t := by
  unfold nfc
  cases t with
  | nil => rfl
  | cons c t' =>
    rw [show nfd (c :: t') = nfdChar c ++ nfd t' from rfl]
    rw [compose_nfdChar c (h c (List.mem_cons_self c t')) (nfd t')]
    exact composeAux_nfd t' (fun x hx => h x (List.mem_cons_of_mem c hx)) c

lemma mem_excludeChars {c : Char} (h : excludeChars.contains c = true) :
    c = 'й' ∨ c = 'ё' := by
  have hm : c ∈ excludeChars := List.mem_of_elem_eq_true h
  simpa [excludeChars] using hm

lemma stripDiacriticsChar_stable {c d : Char} (h : d ∈ stripDiacriticsChar c) :
    stripDiacriticsChar d = [d] := by
  unfold stripDiacriticsChar at h
  split_ifs at h with hex
  · rw [List.mem_singleton] at h
    rcases mem_excludeChars hex with rfl | rfl
    · rw [h]
      decide
    · rw [h]
      decide
  · rw [List.mem_filter] at h
    obtain ⟨hdn, hdc⟩ := h
    by_cases h3 : c = 'Й'
    · subst h3
      have : d = 'И' ∨ d = '\u0306' := by simpa [nfdChar] using hdn
      rcases this with rfl | rfl
      · decide
      · exact absurd hdc (by decide)
    by_cases h4 : c = 'Ё'
    · subst h4
      have : d = 'Е' ∨ d = '\u0308' := by simpa [nfdChar] using hdn
      rcases this with rfl | rfl
      · decide
      · exact absurd hdc (by decide)
    by_cases h5 : c = 'á'
    · subst h5
      have : d = 'a' ∨ d = '\u0301' := by simpa [nfdChar] using hdn
      rcases this with rfl | rfl
      · decide
      · exact absurd hdc (by decide)
    by_cases h6 : c = 'é'
    · subst h6
      have : d = 'e' ∨ d = '\u0301' := by simpa [nfdChar] using hdn
      rcases this with rfl | rfl
      · decide
      · exact absurd hdc (by decide)
    by_cases h1 : c = 'й'
    · exact absurd (by rw [h1]; decide : excludeChars.contains c = true) hex
    by_cases h2 : c = 'ё'
    · exact absurd (by rw [h2]; decide : excludeChars.contains c = true) hex
    have hnf : nfdChar c = [c] := by
      unfold nfdChar
      rw [if_neg h1, if_neg h2, if_neg h3, if_neg h4, if_neg h5, if_neg h6]
    rw [hnf, List.mem_singleton] at hdn
    subst hdn
    unfold stripDiacriticsChar
    rw [if_neg hex, hnf]
    rw [List.filter_cons]
    simp only [hdc, if_true, List.filter_nil]

lemma flatMap_id (f : Char → List Char) :
    ∀ t : List Char, (∀ c ∈ t, f c = [c]) → t.flatMap f = t := by
  intro t
  induction t with
  | nil => intro _; rfl
  | cons c t' ih =>
    intro h
    rw [List.flatMap_cons, h c (List.mem_cons_self c t')]
    rw [ih fun x hx => h x (List.mem_cons_of_mem c hx)]
    rfl

lemma preprocess_chars_stable (t : List Char) :
    ∀ c ∈ preprocess_text t, stripDiacriticsChar c = [c] := by
  intro c hc
  unfold preprocess_text at hc
  obtain ⟨c₁, _, hm⟩ := mem_stripDiacritics hc
  exact stripDiacriticsChar_stable hm

/-- C6 (amended): the normalizer is idempotent on every input whose
normalized form is left unchanged by the header-marker substitution and by
whitespace trimming.  The accent substitution, NBSP replacement, NFC
normalization and diacritic stripping are always no-ops on normalizer
output; only the header substitution (whose replacement can reassemble a
`== ... ==` pattern) and the trim (a leading combining mark can shield
whitespace in pass one) can make a second pass differ, as the counterexample
shows. -/
theorem C6_idempotent_on_stable_outputs (t : List Char)
    (hhdr : headerSub (preprocess_text t) = preprocess_text t)
    (hstrip : pyStrip (preprocess_text t) = preprocess_text t) :
    preprocess_text (preprocess_text t) = preprocess_text t := by
  have hcf := combfree_preprocess t
  have hnb := preprocess_no_nbsp t
  show stripDiacritics (nfc (pyStrip (nbspSub (headerSub
    (accentSub (preprocess_text t)))))) = preprocess_text t
  rw [accentSub_id (preprocess_text t) (no_acute_of_combfree hcf)]
  rw [hhdr]
  rw [nbspSub_id (preprocess_text t) hnb]
  rw [hstrip]
  rw [nfc_id (preprocess_text t) hcf]
  show (preprocess_text t).flatMap stripDiacriticsChar = preprocess_text t
  exact flatMap_id stripDiacriticsChar (preprocess_text t) (preprocess_chars_stable t)

/-- Witness for C6: the ASCII input "ab" is a fixed point of the normalizer,
its output is untouched by the header substitution and the trim, and the
amended idempotence theorem applies. -/
theorem C6_idempotent_on_stable_outputs_witness :
    preprocess_text (preprocess_text "ab".toList) = preprocess_text "ab".toList :=
  C6_idempotent_on_stable_outputs "ab".toList (by decide) (by decide)

end WikiFacts
